import Mathlib

/-!
# Verification of the Selenium_Automation_Toolkit cookie-clicker core

Shallow embedding of the purchase-decision loop of the repository, from
`src/examples/cookie_clicker.py` (`CookieClickerPage` / `CookieClickerBot`)
and from the older standalone script `src/cookie_clicker.py`.

Python display texts are modelled as `List Char`.  Python `float` is
modelled as `ℚ`: every value the threshold ever takes is of the form
`10 * (3/2)^k` or `2*price * (3/2)^k` scaled products of `1.5`, all of
which are exactly representable as binary doubles until far beyond any
realistic run, so `ℚ` arithmetic agrees with the source's float
arithmetic on the properties proved here.  Opaque WebElement handles are
modelled as natural-number identifiers paired with the element's `.text`.
-/

/-- Model of Python `str.split()` (no argument): split on whitespace and
drop empty tokens.  `cur` is the reversed current token. -/
def pySplitWsAux (cur : List Char) : List Char → List (List Char)
  | [] => if cur = [] then [] else [cur.reverse]
  | c :: cs =>
    if c.isWhitespace then
      if cur = [] then pySplitWsAux [] cs
      else cur.reverse :: pySplitWsAux [] cs
    else pySplitWsAux (c :: cur) cs

/-- Python `text.split()`. -/
def pySplitWs (cs : List Char) : List (List Char) :=
  pySplitWsAux [] cs

/-- Model of Python `str.split("\n")`: split on newline, keeping empty
parts; the result is always non-empty. -/
def splitLinesAux (cur : List Char) : List Char → List (List Char)
  | [] => [cur.reverse]
  | c :: cs =>
    if c = '\n' then cur.reverse :: splitLinesAux [] cs
    else splitLinesAux (c :: cur) cs

/-- Python `text.split("\n")`. -/
def splitLines (cs : List Char) : List (List Char) :=
  splitLinesAux [] cs

/-- Python `text.replace(",", "")`: delete every comma. -/
def removeCommas (cs : List Char) : List Char :=
  cs.filter (fun c => c ≠ ',')

/-- Python `str.isdigit()` restricted to ASCII digits (the only digits that
occur in the game's display texts). -/
def pyIsdigit (cs : List Char) : Bool :=
  cs ≠ [] && cs.all Char.isDigit

/-- Numeric value of an ASCII digit character. -/
def digitVal (c : Char) : ℕ :=
  c.toNat - '0'.toNat

/-- Value of a most-significant-digit-first ASCII digit string. -/
def digitsToNat (cs : List Char) : ℕ :=
  cs.foldl (fun a c => 10 * a + digitVal c) 0

/-- Digit-run parsing: `some n` iff the text is a non-empty all-digit
string. -/
def parseDigits (cs : List Char) : Option ℕ :=
  if pyIsdigit cs then some (digitsToNat cs) else none

/-- Model of Python `int(text)` on whitespace-free text: an optional sign
followed by a non-empty digit run.  (Python also accepts interior
underscores and surrounding whitespace; neither occurs in the texts this
program reads, since tokens come from `split()`.) -/
def pyInt (cs : List Char) : Option ℤ :=
  match cs with
  | [] => none
  | c :: rest =>
    if c = '+' then (parseDigits rest).map (fun n => (n : ℤ))
    else if c = '-' then (parseDigits rest).map (fun n => -(n : ℤ))
    else (parseDigits cs).map (fun n => (n : ℤ))

/-- `CookieClickerPage.get_cookie_count` (src/examples/cookie_clicker.py
lines 63-77): `int(text.split()[0].replace(",", ""))`, returning `0` when
the `int` conversion raises `ValueError` or the `[0]` index raises
`IndexError`. -/
def get_cookie_count (text : List Char) : ℤ :=
  match pySplitWs text with
  | [] => 0
  | t :: _ =>
    match pyInt (removeCommas t) with
    | some n => n
    | none => 0

/-- The price a product's displayed text parses to:
`text.split("\n")[-1].replace(",", "")`, accepted only if `isdigit`. -/
def parsedPrice (text : List Char) : Option ℕ :=
  parseDigits (removeCommas ((splitLines text).getLastD []))

/-- Loop body of `find_most_expensive_product` (lines 100-112): parse the
product's trailing price token; keep the strictly larger price (so the
first-seen maximum wins ties), skip products that do not parse.  The
accumulator is `(most_expensive, max_price)`. -/
def fmepStep (acc : Option ℕ × ℕ) (p : ℕ × List Char) : Option ℕ × ℕ :=
  match parsedPrice p.2 with
  | some price => if price > acc.2 then (some p.1, price) else acc
  | none => acc

/-- `CookieClickerPage.find_most_expensive_product` (lines 87-114):
`max_price = 0`, `most_expensive = None`, then the loop over the products.
A product is an opaque handle paired with its `.text`. -/
def find_most_expensive_product (products : List (ℕ × List Char)) :
    Option ℕ × ℕ :=
  products.foldl fmepStep (none, 0)

/-- Mutable state of `CookieClickerBot`. -/
structure BotState where
  purchase_threshold : ℚ
  click_count : ℕ
  purchase_count : ℕ
deriving DecidableEq, Repr

/-- `CookieClickerBot.__init__` (lines 127-131): threshold 10, counters 0. -/
def initState : BotState :=
  { purchase_threshold := 10, click_count := 0, purchase_count := 0 }

/-- `CookieClickerBot._try_purchase` (lines 168-184).  Inputs are the
environment reads made during the call: the parsed cookie count and the
currently enabled products.  Returns the updated state and the buy action
issued (the clicked product's handle), if any. -/
def try_purchase (cookies : ℤ) (products : List (ℕ × List Char))
    (s : BotState) : BotState × Option ℕ :=
  if s.purchase_threshold ≤ (cookies : ℚ) then
    match products with
    | [] => (s, none)
    | _ :: _ =>
      let r := find_most_expensive_product products
      match r.1 with
      | some h =>
        if (r.2 : ℤ) ≤ cookies then
          ({ s with
              purchase_count := s.purchase_count + 1,
              purchase_threshold :=
                max ((r.2 : ℚ) * 2) (s.purchase_threshold * (3 / 2)) },
           some h)
        else (s, none)
      | none => (s, none)
  else (s, none)

/-- One primary click in `CookieClickerBot.run` (lines 153-154). -/
def clickStep (s : BotState) : BotState :=
  { s with click_count := s.click_count + 1 }

/-- States of `CookieClickerBot` reachable from `__init__` by any
interleaving of primary clicks and `_try_purchase` calls, with arbitrary
environment reads. -/
inductive Reachable : BotState → Prop
  | init : Reachable initState
  | click {s : BotState} : Reachable s → Reachable (clickStep s)
  | tick {s : BotState} (cookies : ℤ) (products : List (ℕ × List Char)) :
      Reachable s → Reachable (try_purchase cookies products s).1

/-- WebDriver exceptions relevant to the modelled code paths. -/
inductive SelEx where
  | staleElement
  | attributeError
deriving DecidableEq, Repr

/-- `CookieClickerBot._try_purchase` with the buy action's failure mode
made explicit.  `buyFails h = true` means `purchase_upgrade`'s
`product.click()` (line 119) raises `StaleElementReferenceException` for
handle `h`.  Neither `purchase_upgrade`, `_try_purchase` nor `run` has a
handler for it, so the embedding returns `Except.error`; the error carries
the bot state at the moment of the raise (the counter and threshold
updates on lines 181-183 come after the `purchase_upgrade` call, so that
state is the pre-call state). -/
def try_purchaseE (buyFails : ℕ → Bool) (cookies : ℤ)
    (products : List (ℕ × List Char)) (s : BotState) :
    Except (SelEx × BotState) (BotState × Option ℕ) :=
  if s.purchase_threshold ≤ (cookies : ℚ) then
    match products with
    | [] => Except.ok (s, none)
    | _ :: _ =>
      let r := find_most_expensive_product products
      match r.1 with
      | some h =>
        if (r.2 : ℤ) ≤ cookies then
          if buyFails h then Except.error (SelEx.staleElement, s)
          else
            Except.ok
              ({ s with
                  purchase_count := s.purchase_count + 1,
                  purchase_threshold :=
                    max ((r.2 : ℚ) * 2) (s.purchase_threshold * (3 / 2)) },
               some h)
        else Except.ok (s, none)
      | none => Except.ok (s, none)
  else Except.ok (s, none)

/-- The fold of src/cookie_clicker.py lines 65-77: same computation as
`find_most_expensive_product` (without the dead `try`/`except` wrapper);
`max_price = 0`, `most_expensive = None`, strict `>` keeps the first-seen
maximum. -/
def legacy_find_max (buttons : List (ℕ × List Char)) : Option ℕ × ℕ :=
  buttons.foldl fmepStep (none, 0)

/-- One iteration of the `while True` loop of src/cookie_clicker.py
lines 49-81 (after the initial `cookie_button.click()`): parse the cookie
text (on `ValueError`/`IndexError`: `continue`, i.e. counter unchanged, no
buy); if `counter * 10 < no_of_cookies`, find the most expensive enabled
button and call `most_expensive.click()` — with NO affordability check and
NO `None` check, so when no button parses the call raises
`AttributeError`; on a buy, `counter` becomes `counter * 10`. -/
def legacyStep (cookiesText : List Char) (buttons : List (ℕ × List Char))
    (counter : ℚ) : Except SelEx (ℚ × Option ℕ) :=
  match pySplitWs cookiesText with
  | [] => Except.ok (counter, none)
  | t :: _ =>
    match pyInt (removeCommas t) with
    | none => Except.ok (counter, none)
    | some n =>
      if counter * 10 < (n : ℚ) then
        match (legacy_find_max buttons).1 with
        | none => Except.error SelEx.attributeError
        | some h => Except.ok (counter * 10, some h)
      else Except.ok (counter, none)

/-- The final-statistics summary printed by
`CookieClickerBot._print_statistics` (lines 186-195). -/
structure RunStats where
  total_clicks : ℕ
  total_purchases : ℕ
  final_cookies : ℤ
deriving DecidableEq, Repr

/-- Environment of a run: for the `i`-th loop-condition check, the
wall-clock reading `time.time()`, and the texts the page returns for
reads performed during that iteration. -/
structure RunEnv where
  clock : ℕ → ℚ
  cookiesText : ℕ → List Char
  products : ℕ → List (ℕ × List Char)

/-- `CookieClickerBot.run` (lines 141-166): while `time.time() - start <
duration`, click the cookie, increment `click_count`, and on every 10th
click call `_try_purchase`; when the condition fails, print the final
statistics (which performs one more cookie read).  The status print every
100 clicks (lines 161-163) reads the cookie count but changes no state,
so it is not modelled.  `fuel` bounds the number of iterations the
embedding unfolds; `none` means the loop was still running after `fuel`
iterations. -/
def runAux (env : RunEnv) (start duration : ℚ) :
    ℕ → ℕ → BotState → Option (BotState × RunStats)
  | 0, _, _ => none
  | fuel + 1, i, s =>
    if env.clock i - start < duration then
      let s1 := clickStep s
      let s2 :=
        if s1.click_count % 10 = 0 then
          (try_purchase (get_cookie_count (env.cookiesText i))
            (env.products i) s1).1
        else s1
      runAux env start duration fuel (i + 1) s2
    else
      some (s, ⟨s.click_count, s.purchase_count,
                get_cookie_count (env.cookiesText i)⟩)

/-- `run(duration)` started at clock value `start` from bot state `s`. -/
def runFor (env : RunEnv) (start duration : ℚ) (fuel : ℕ) (s : BotState) :
    Option (BotState × RunStats) :=
  runAux env start duration fuel 0 s

/-- Insert a thousands separator after every third digit, on a
least-significant-digit-first digit list; `k` counts digits remaining in
the current group. -/
def groupSepAux (k : ℕ) : List Char → List Char
  | [] => []
  | c :: cs =>
    match k with
    | 0 => ',' :: c :: groupSepAux 2 cs
    | k + 1 => c :: groupSepAux k cs

/-- Base-10 digits, least significant first, with explicit fuel so the
kernel can evaluate it (`digitsLE n n = Nat.digits 10 n`, proved below). -/
def digitsLE : ℕ → ℕ → List ℕ
  | 0, _ => []
  | fuel + 1, n => if n = 0 then [] else n % 10 :: digitsLE fuel (n / 10)

/-- Decimal rendering of a natural number with thousands separators,
most significant digit first — the shape of the game's currency display
(e.g. `1,234,567`). -/
def withSep (n : ℕ) : List Char :=
  if n = 0 then ['0']
  else (groupSepAux 3 ((digitsLE n n).map Nat.digitChar)).reverse


/-! ## Helper lemmas -/

theorem digitsLE_eq (fuel n : ℕ) (h : n ≤ fuel) :
    digitsLE fuel n = Nat.digits 10 n := by
  induction fuel generalizing n with
  | zero => interval_cases n; simp [digitsLE]
  | succ fuel ih =>
    rcases Nat.eq_zero_or_pos n with hn | hn
    · subst hn; simp [digitsLE]
    · rw [digitsLE, if_neg (Nat.pos_iff_ne_zero.mp hn),
        Nat.digits_def' (by norm_num : 1 < 10) hn, ih]
      exact Nat.le_of_lt_succ
        (Nat.lt_of_lt_of_le (Nat.div_lt_self hn (by norm_num)) h)

theorem fmepStep_of_none {p : ℕ × List Char} (acc : Option ℕ × ℕ)
    (hpp : parsedPrice p.2 = none) : fmepStep acc p = acc := by
  unfold fmepStep
  rw [hpp]

theorem fmepStep_of_gt {p : ℕ × List Char} {price : ℕ} (acc : Option ℕ × ℕ)
    (hpp : parsedPrice p.2 = some price) (hlt : price > acc.2) :
    fmepStep acc p = (some p.1, price) := by
  unfold fmepStep
  rw [hpp]
  exact if_pos hlt

theorem fmepStep_of_ngt {p : ℕ × List Char} {price : ℕ} (acc : Option ℕ × ℕ)
    (hpp : parsedPrice p.2 = some price) (hlt : ¬ price > acc.2) :
    fmepStep acc p = acc := by
  unfold fmepStep
  rw [hpp]
  exact if_neg hlt

theorem fmepStep_snd_le (acc : Option ℕ × ℕ) (p : ℕ × List Char) :
    acc.2 ≤ (fmepStep acc p).2 := by
  rcases hpp : parsedPrice p.2 with _ | price
  · rw [fmepStep_of_none acc hpp]
  · by_cases hlt : price > acc.2
    · rw [fmepStep_of_gt acc hpp hlt]
      exact Nat.le_of_lt hlt
    · rw [fmepStep_of_ngt acc hpp hlt]

theorem foldl_fmepStep_snd_le (ps : List (ℕ × List Char))
    (acc : Option ℕ × ℕ) : acc.2 ≤ (ps.foldl fmepStep acc).2 := by
  induction ps generalizing acc with
  | nil => exact le_rfl
  | cons p ps ih =>
    rw [List.foldl_cons]
    exact le_trans (fmepStep_snd_le acc p) (ih (fmepStep acc p))

/-- Every parsed price in the list is at most the fold's `max_price`. -/
theorem foldl_fmepStep_le (ps : List (ℕ × List Char)) (acc : Option ℕ × ℕ)
    (p : ℕ × List Char) (hp : p ∈ ps) (n : ℕ)
    (hn : parsedPrice p.2 = some n) : n ≤ (ps.foldl fmepStep acc).2 := by
  induction ps generalizing acc with
  | nil => cases hp
  | cons q ps ih =>
    rw [List.foldl_cons]
    rcases List.mem_cons.mp hp with rfl | hmem
    · refine le_trans ?_ (foldl_fmepStep_snd_le ps (fmepStep acc p))
      by_cases hlt : n > acc.2
      · rw [fmepStep_of_gt acc hn hlt]
      · rw [fmepStep_of_ngt acc hn hlt]
        exact Nat.le_of_not_lt hlt
    · exact ih (fmepStep acc q) hmem

/-- If the fold selected a handle, either the accumulator already held it
(and the price is unchanged), or the handle and price come from a list
element. -/
theorem foldl_fmepStep_some (ps : List (ℕ × List Char))
    (acc : Option ℕ × ℕ) (h : ℕ)
    (hres : (ps.foldl fmepStep acc).1 = some h) :
    (acc.1 = some h ∧ (ps.foldl fmepStep acc).2 = acc.2) ∨
      ∃ t, (h, t) ∈ ps ∧ parsedPrice t = some (ps.foldl fmepStep acc).2 := by
  induction ps generalizing acc with
  | nil => exact Or.inl ⟨hres, rfl⟩
  | cons p ps ih =>
    rw [List.foldl_cons] at hres ⊢
    rcases hpp : parsedPrice p.2 with _ | price
    · rw [fmepStep_of_none acc hpp] at hres ⊢
      rcases ih acc hres with hl | ⟨t, ht, hpt⟩
      · exact Or.inl hl
      · exact Or.inr ⟨t, List.mem_cons_of_mem _ ht, hpt⟩
    · by_cases hlt : price > acc.2
      · rw [fmepStep_of_gt acc hpp hlt] at hres ⊢
        rcases ih (some p.1, price) hres with ⟨h1, h2⟩ | ⟨t, ht, hpt⟩
        · refine Or.inr ⟨p.2, ?_, ?_⟩
          · have hp1 : p.1 = h := by
              simpa using h1
            rw [← hp1]
            exact List.mem_cons_self _ _
          · rw [h2, hpp]
        · exact Or.inr ⟨t, List.mem_cons_of_mem _ ht, hpt⟩
      · rw [fmepStep_of_ngt acc hpp hlt] at hres ⊢
        rcases ih acc hres with hl | ⟨t, ht, hpt⟩
        · exact Or.inl hl
        · exact Or.inr ⟨t, List.mem_cons_of_mem _ ht, hpt⟩

/-- If the fold selected a handle, the running maximum is positive
(updates only happen on a strict increase from the initial `0`). -/
theorem foldl_fmepStep_pos (ps : List (ℕ × List Char))
    (acc : Option ℕ × ℕ) (hacc : ∀ h, acc.1 = some h → 0 < acc.2) (h : ℕ)
    (hres : (ps.foldl fmepStep acc).1 = some h) :
    0 < (ps.foldl fmepStep acc).2 := by
  induction ps generalizing acc with
  | nil => exact hacc h hres
  | cons p ps ih =>
    rw [List.foldl_cons] at hres ⊢
    refine ih (fmepStep acc p) ?_ hres
    intro h' hh'
    rcases hpp : parsedPrice p.2 with _ | price
    · rw [fmepStep_of_none acc hpp] at hh' ⊢
      exact hacc h' hh'
    · by_cases hlt : price > acc.2
      · rw [fmepStep_of_gt acc hpp hlt]
        exact Nat.lt_of_le_of_lt (Nat.zero_le _) hlt
      · rw [fmepStep_of_ngt acc hpp hlt] at hh' ⊢
        exact hacc h' hh'

/-- `find_most_expensive_product` characterization of a successful
selection: the price comes from a list element, is the maximum of all
parsed prices, and is positive. -/
theorem fmep_some (ps : List (ℕ × List Char)) (h : ℕ)
    (hres : (find_most_expensive_product ps).1 = some h) :
    (∃ t, (h, t) ∈ ps ∧
        parsedPrice t = some (find_most_expensive_product ps).2) ∧
      (∀ p ∈ ps, ∀ n, parsedPrice p.2 = some n →
        n ≤ (find_most_expensive_product ps).2) ∧
      0 < (find_most_expensive_product ps).2 := by
  refine ⟨?_, ?_, ?_⟩
  · rcases foldl_fmepStep_some ps (none, 0) h hres with ⟨h1, _⟩ | he
    · cases h1
    · exact he
  · exact fun p hp n hn => foldl_fmepStep_le ps (none, 0) p hp n hn
  · exact foldl_fmepStep_pos ps (none, 0) (by intro h' hh'; cases hh') h hres

theorem try_purchase_of_lt {c : ℤ} {s : BotState}
    (ps : List (ℕ × List Char)) (h : (c : ℚ) < s.purchase_threshold) :
    try_purchase c ps s = (s, none) := by
  unfold try_purchase
  rw [if_neg (not_le.mpr h)]

theorem try_purchase_nil (c : ℤ) (s : BotState) :
    try_purchase c [] s = (s, none) := by
  unfold try_purchase
  split <;> rfl

theorem try_purchase_sel_none {c : ℤ} {s : BotState}
    {ps : List (ℕ × List Char)}
    (hf : (find_most_expensive_product ps).1 = none) :
    try_purchase c ps s = (s, none) := by
  cases ps with
  | nil => exact try_purchase_nil c s
  | cons q qs =>
    unfold try_purchase
    split
    · dsimp only
      rw [hf]
    · rfl

theorem try_purchase_buy_eq {c : ℤ} {s : BotState}
    {ps : List (ℕ × List Char)} {h price : ℕ}
    (hth : s.purchase_threshold ≤ (c : ℚ))
    (hf : find_most_expensive_product ps = (some h, price))
    (hle : (price : ℤ) ≤ c) :
    try_purchase c ps s =
      ({ s with
          purchase_count := s.purchase_count + 1,
          purchase_threshold :=
            max ((price : ℚ) * 2) (s.purchase_threshold * (3 / 2)) },
       some h) := by
  cases ps with
  | nil => simp [find_most_expensive_product] at hf
  | cons q qs =>
    unfold try_purchase
    rw [if_pos hth]
    dsimp only
    rw [hf]
    dsimp only
    rw [if_pos hle]

theorem try_purchase_unaffordable_eq {c : ℤ} {s : BotState}
    {ps : List (ℕ × List Char)} {h price : ℕ}
    (hf : find_most_expensive_product ps = (some h, price))
    (hgt : c < (price : ℤ)) :
    try_purchase c ps s = (s, none) := by
  cases ps with
  | nil => exact try_purchase_nil c s
  | cons q qs =>
    unfold try_purchase
    split
    · dsimp only
      rw [hf]
      dsimp only
      rw [if_neg (not_le.mpr hgt)]
    · rfl

/-- Case analysis of a `_try_purchase` call that issued a buy. -/
theorem try_purchase_buy_inv {c : ℤ} {s : BotState}
    {ps : List (ℕ × List Char)} {h : ℕ}
    (hb : (try_purchase c ps s).2 = some h) :
    s.purchase_threshold ≤ (c : ℚ) ∧
      (find_most_expensive_product ps).1 = some h ∧
      ((find_most_expensive_product ps).2 : ℤ) ≤ c ∧
      try_purchase c ps s =
        ({ s with
            purchase_count := s.purchase_count + 1,
            purchase_threshold :=
              max (((find_most_expensive_product ps).2 : ℚ) * 2)
                (s.purchase_threshold * (3 / 2)) },
         some h) := by
  by_cases hth : s.purchase_threshold ≤ (c : ℚ)
  · rcases hsel : (find_most_expensive_product ps).1 with _ | h'
    · rw [try_purchase_sel_none hsel] at hb
      cases hb
    · have hf : find_most_expensive_product ps =
          (some h', (find_most_expensive_product ps).2) := by
        rw [← hsel]
      by_cases hle : ((find_most_expensive_product ps).2 : ℤ) ≤ c
      · have heq := try_purchase_buy_eq hth hf hle
        rw [heq] at hb
        have hh : h' = h := by simpa using hb
        subst hh
        exact ⟨hth, rfl, hle, heq⟩
      · rw [try_purchase_unaffordable_eq hf (not_le.mp hle)] at hb
        cases hb
  · rw [try_purchase_of_lt ps (not_le.mp hth)] at hb
    cases hb

/-- A `_try_purchase` call that issued no buy leaves the state unchanged. -/
theorem try_purchase_nobuy_frame {c : ℤ} {s : BotState}
    {ps : List (ℕ × List Char)}
    (hb : (try_purchase c ps s).2 = none) :
    try_purchase c ps s = (s, none) := by
  by_cases hth : s.purchase_threshold ≤ (c : ℚ)
  · rcases hsel : (find_most_expensive_product ps).1 with _ | h'
    · exact try_purchase_sel_none hsel
    · have hf : find_most_expensive_product ps =
          (some h', (find_most_expensive_product ps).2) := by
        rw [← hsel]
      by_cases hle : ((find_most_expensive_product ps).2 : ℤ) ≤ c
      · rw [try_purchase_buy_eq hth hf hle] at hb
        cases hb
      · exact try_purchase_unaffordable_eq hf (not_le.mp hle)
  · exact try_purchase_of_lt ps (not_le.mp hth)

/-- The threshold never decreases across a `_try_purchase` call. -/
theorem try_purchase_thr_le (c : ℤ) (ps : List (ℕ × List Char))
    (s : BotState) :
    s.purchase_threshold ≤ (try_purchase c ps s).1.purchase_threshold := by
  rcases hres : (try_purchase c ps s).2 with _ | h
  · rw [try_purchase_nobuy_frame hres]
  · obtain ⟨hth, hsel, hle, heq⟩ := try_purchase_buy_inv hres
    rw [heq]
    have hp : 0 < (find_most_expensive_product ps).2 := (fmep_some ps h hsel).2.2
    have hp' : (1 : ℚ) ≤ ((find_most_expensive_product ps).2 : ℚ) := by
      exact_mod_cast hp
    rcases le_or_lt s.purchase_threshold 0 with h0 | h0
    · exact le_trans (le_trans h0 (by linarith)) (le_max_left _ _)
    · exact le_trans (by linarith) (le_max_right _ _)

/-- On a buy, the threshold is updated to
`max (price * 2) (threshold * 1.5)` and strictly increases. -/
theorem try_purchase_thr_lt {c : ℤ} {ps : List (ℕ × List Char)}
    {s : BotState} {h : ℕ} (hb : (try_purchase c ps s).2 = some h) :
    (try_purchase c ps s).1.purchase_threshold =
      max (((find_most_expensive_product ps).2 : ℚ) * 2)
        (s.purchase_threshold * (3 / 2)) ∧
    s.purchase_threshold < (try_purchase c ps s).1.purchase_threshold := by
  obtain ⟨hth, hsel, hle, heq⟩ := try_purchase_buy_inv hb
  have hp : 0 < (find_most_expensive_product ps).2 := (fmep_some ps h hsel).2.2
  have hp' : (1 : ℚ) ≤ ((find_most_expensive_product ps).2 : ℚ) := by
    exact_mod_cast hp
  rw [heq]
  refine ⟨rfl, ?_⟩
  rcases le_or_lt s.purchase_threshold 0 with h0 | h0
  · have hlt : s.purchase_threshold <
        ((find_most_expensive_product ps).2 : ℚ) * 2 := by linarith
    exact lt_of_lt_of_le hlt (le_max_left _ _)
  · have hlt : s.purchase_threshold < s.purchase_threshold * (3 / 2) := by
      linarith
    exact lt_of_lt_of_le hlt (le_max_right _ _)

/-- Every reachable bot state has threshold at least the initial `10`. -/
theorem reachable_thr_ge_ten {s : BotState} (hs : Reachable s) :
    10 ≤ s.purchase_threshold := by
  induction hs with
  | init => norm_num [initState]
  | click _ ih => exact ih
  | tick cookies products _ ih =>
    exact le_trans ih (try_purchase_thr_le cookies products _)

/-! ## Claim theorems -/

/-- Claim C3: across every sequence of `tick()` calls the purchase
threshold is non-decreasing, and on every call that issues a buy it
strictly increases, the new value being
`max (selected_price * 2) (old_threshold * 1.5)`. -/
theorem claim_C3_threshold_monotone (c : ℤ) (ps : List (ℕ × List Char))
    (s : BotState) :
    s.purchase_threshold ≤ (try_purchase c ps s).1.purchase_threshold ∧
      ∀ h, (try_purchase c ps s).2 = some h →
        (try_purchase c ps s).1.purchase_threshold =
            max (((find_most_expensive_product ps).2 : ℚ) * 2)
              (s.purchase_threshold * (3 / 2)) ∧
          s.purchase_threshold <
            (try_purchase c ps s).1.purchase_threshold :=
  ⟨try_purchase_thr_le c ps s, fun _ hb => try_purchase_thr_lt hb⟩

/-- Witness for C3 at a concrete buying tick. -/
theorem claim_C3_threshold_monotone_witness :
    initState.purchase_threshold ≤
        (try_purchase 300 [(0, ("Cursor\n100" : String).data)]
            initState).1.purchase_threshold ∧
      initState.purchase_threshold <
        (try_purchase 300 [(0, ("Cursor\n100" : String).data)]
            initState).1.purchase_threshold :=
  ⟨(claim_C3_threshold_monotone 300 [(0, ("Cursor\n100" : String).data)]
      initState).1,
   ((claim_C3_threshold_monotone 300 [(0, ("Cursor\n100" : String).data)]
      initState).2 0 (by decide)).2⟩

/-- Claim C6: when the cookie count is strictly below the threshold,
`tick()` is a no-op: no buy action and the whole bot state unchanged. -/
theorem claim_C6_below_threshold_noop (c : ℤ) (ps : List (ℕ × List Char))
    (s : BotState) (h : (c : ℚ) < s.purchase_threshold) :
    try_purchase c ps s = (s, none) :=
  try_purchase_of_lt ps h

/-- Witness for C6: 5 cookies against the initial threshold 10. -/
theorem claim_C6_below_threshold_noop_witness :
    ((5 : ℤ) : ℚ) < initState.purchase_threshold ∧
      try_purchase 5 [(0, ("Cursor\n100" : String).data)] initState =
        (initState, none) :=
  ⟨by norm_num [initState],
   claim_C6_below_threshold_noop 5 [(0, ("Cursor\n100" : String).data)]
     initState (by norm_num [initState])⟩

/-- Claim C7: with an empty option list, or when every option's parsed
price exceeds the cookie count, `tick()` issues no buy and leaves the
state (in particular the threshold) unchanged; and no `tick()` ever
issues more than one buy action. -/
theorem claim_C7_no_affordable_noop (c : ℤ) (ps : List (ℕ × List Char))
    (s : BotState) :
    ((ps = [] ∨ ∀ p ∈ ps, ∀ n, parsedPrice p.2 = some n → c < (n : ℤ)) →
        try_purchase c ps s = (s, none)) ∧
      (try_purchase c ps s).2.toList.length ≤ 1 := by
  constructor
  · rintro (rfl | hall)
    · exact try_purchase_nil c s
    · rcases hsel : (find_most_expensive_product ps).1 with _ | h'
      · exact try_purchase_sel_none hsel
      · have hf : find_most_expensive_product ps =
            (some h', (find_most_expensive_product ps).2) := by
          rw [← hsel]
        obtain ⟨⟨t, ht, hpt⟩, _, _⟩ := fmep_some ps h' hsel
        exact try_purchase_unaffordable_eq hf (hall (h', t) ht _ hpt)
  · rcases (try_purchase c ps s).2 with _ | h <;> simp

/-- Witness for C7: the spec's two no-action examples (empty list with
1000 cookies; a single 100-priced option with 50 cookies). -/
theorem claim_C7_no_affordable_noop_witness :
    try_purchase 1000 [] initState = (initState, none) ∧
      try_purchase 50 [(0, ("A\n100" : String).data)] initState =
        (initState, none) := by
  constructor
  · exact (claim_C7_no_affordable_noop 1000 [] initState).1 (Or.inl rfl)
  · refine (claim_C7_no_affordable_noop 50 [(0, ("A\n100" : String).data)]
      initState).1 (Or.inr ?_)
    intro p hp n hn
    have hpeq : p = (0, ("A\n100" : String).data) := by simpa using hp
    subst hpeq
    have h100 : parsedPrice ("A\n100" : String).data = some 100 := by decide
    rw [h100] at hn
    cases hn
    decide

/-- Claim C10 (implicit): the threshold starts at 10 and every update
keeps it at least 10, so whenever currency parsing falls back to 0 the
below-threshold branch is taken and no buy is issued. -/
theorem claim_C10_threshold_ge_ten {s : BotState} (hs : Reachable s) :
    10 ≤ s.purchase_threshold ∧
      ∀ ps, try_purchase 0 ps s = (s, none) := by
  have h10 := reachable_thr_ge_ten hs
  refine ⟨h10, fun ps => try_purchase_of_lt ps ?_⟩
  have : ((0 : ℤ) : ℚ) < 10 := by norm_num
  exact lt_of_lt_of_le this h10

/-- Witness for C10 at the initial state. -/
theorem claim_C10_threshold_ge_ten_witness :
    10 ≤ initState.purchase_threshold ∧
      try_purchase 0 [(0, ("Cursor\n100" : String).data)] initState =
        (initState, none) :=
  ⟨(claim_C10_threshold_ge_ten Reachable.init).1,
   (claim_C10_threshold_ge_ten Reachable.init).2
     [(0, ("Cursor\n100" : String).data)]⟩

/-- `_try_purchase` either completes normally (agreeing with the pure
embedding) or raises `StaleElement` out of the buy call, with the bot
state at the raise exactly the pre-call state. -/
theorem try_purchaseE_ok_or_error (buyFails : ℕ → Bool) (c : ℤ)
    (ps : List (ℕ × List Char)) (s : BotState) :
    try_purchaseE buyFails c ps s = Except.ok (try_purchase c ps s) ∨
      ∃ h, (try_purchase c ps s).2 = some h ∧ buyFails h = true ∧
        try_purchaseE buyFails c ps s =
          Except.error (SelEx.staleElement, s) := by
  by_cases hth : s.purchase_threshold ≤ (c : ℚ)
  · cases ps with
    | nil =>
      left
      rw [try_purchase_nil]
      unfold try_purchaseE
      split <;> rfl
    | cons q qs =>
      rcases hsel : (find_most_expensive_product (q :: qs)).1 with _ | h'
      · left
        rw [try_purchase_sel_none hsel]
        unfold try_purchaseE
        rw [if_pos hth]
        dsimp only
        rw [hsel]
      · have hf : find_most_expensive_product (q :: qs) =
            (some h', (find_most_expensive_product (q :: qs)).2) := by
          rw [← hsel]
        by_cases hle : ((find_most_expensive_product (q :: qs)).2 : ℤ) ≤ c
        · by_cases hbf : buyFails h' = true
          · right
            refine ⟨h', ?_, hbf, ?_⟩
            · rw [try_purchase_buy_eq hth hf hle]
            · unfold try_purchaseE
              rw [if_pos hth]
              dsimp only
              rw [hf]
              dsimp only
              rw [if_pos hle, if_pos hbf]
          · left
            rw [try_purchase_buy_eq hth hf hle]
            unfold try_purchaseE
            rw [if_pos hth]
            dsimp only
            rw [hf]
            dsimp only
            rw [if_pos hle, if_neg hbf]
        · left
          rw [try_purchase_unaffordable_eq hf (not_le.mp hle)]
          unfold try_purchaseE
          rw [if_pos hth]
          dsimp only
          rw [hf]
          dsimp only
          rw [if_neg hle]
  · left
    rw [try_purchase_of_lt ps (not_le.mp hth)]
    unfold try_purchaseE
    rw [if_neg hth]

/-- Claim C1 counterexample: with options priced 100 and 500 and 300
cookies (threshold met, option 0 affordable), the code issues NO buy —
the unaffordable 500-priced option blocks the affordable 100-priced one,
contradicting "issues a buy on the option of maximum price among those
affordable". -/
theorem claim_C1_cex :
    initState.purchase_threshold ≤ ((300 : ℤ) : ℚ) ∧
      parsedPrice ("Cursor\n100" : String).data = some 100 ∧
      ((100 : ℤ) ≤ (300 : ℤ)) ∧
      try_purchase 300
          [(0, ("Cursor\n100" : String).data),
           (1, ("Grandma\n500" : String).data)] initState =
        (initState, none) := by
  refine ⟨by norm_num [initState], by decide, by norm_num, ?_⟩
  decide

/-- Claim C1 (amended): `tick()` selects the maximum-priced option among
ALL enabled options (first seen wins ties) and buys it only when that
maximum price is affordable; when the overall maximum is unaffordable no
buy happens at all, even if cheaper affordable options exist. -/
theorem claim_C1_max_priced_selection (c : ℤ) (ps : List (ℕ × List Char))
    (s : BotState) (h : ℕ) (hth : s.purchase_threshold ≤ (c : ℚ))
    (hsel : (find_most_expensive_product ps).1 = some h) :
    (∀ p ∈ ps, ∀ n, parsedPrice p.2 = some n →
        n ≤ (find_most_expensive_product ps).2) ∧
      (((find_most_expensive_product ps).2 : ℤ) ≤ c →
        try_purchase c ps s =
          ({ s with
              purchase_count := s.purchase_count + 1,
              purchase_threshold :=
                max (((find_most_expensive_product ps).2 : ℚ) * 2)
                  (s.purchase_threshold * (3 / 2)) },
           some h)) ∧
      (c < ((find_most_expensive_product ps).2 : ℤ) →
        try_purchase c ps s = (s, none)) := by
  have hf : find_most_expensive_product ps =
      (some h, (find_most_expensive_product ps).2) := by
    rw [← hsel]
  exact ⟨(fmep_some ps h hsel).2.1,
    fun hle => try_purchase_buy_eq hth hf hle,
    fun hgt => try_purchase_unaffordable_eq hf hgt⟩

/-- Witness for amended C1: the spec's worked example — options priced
100, 250, 80 with 300 cookies and threshold 50 buy option 1 (price 250)
and set the threshold to `max (250*2) (50*1.5)` (= 500). -/
theorem claim_C1_max_priced_selection_witness :
    try_purchase 300
        [(0, ("A\n100" : String).data), (1, ("B\n250" : String).data),
         (2, ("C\n80" : String).data)]
        { purchase_threshold := 50, click_count := 0, purchase_count := 0 } =
      ({ purchase_threshold :=
            max (((find_most_expensive_product
                [(0, ("A\n100" : String).data), (1, ("B\n250" : String).data),
                 (2, ("C\n80" : String).data)]).2 : ℚ) * 2)
              ((50 : ℚ) * (3 / 2)),
          click_count := 0, purchase_count := 1 },
       some 1) :=
  (claim_C1_max_priced_selection 300
      [(0, ("A\n100" : String).data), (1, ("B\n250" : String).data),
       (2, ("C\n80" : String).data)]
      { purchase_threshold := 50, click_count := 0, purchase_count := 0 }
      1 (by norm_num) (by decide)).2.1 (by decide)

/-- Claim C2 counterexample: the legacy script's loop
(src/cookie_clicker.py lines 61-79) clicks the selected button whenever
`counter * 10 < cookies`, with no affordability check: with 17 cookies
and a single option priced 100 it issues the buy although 17 < 100. -/
theorem claim_C2_cex :
    legacyStep ("17 cookies" : String).data
        [(0, ("A\n100" : String).data)] (8 / 5) =
      Except.ok (16, some 0) ∧
      legacy_find_max [(0, ("A\n100" : String).data)] = (some 0, 100) ∧
      (17 : ℤ) < 100 := by
  refine ⟨?_, by decide, by norm_num⟩
  have h1 : pySplitWs ("17 cookies" : String).data =
      [['1', '7'], ['c', 'o', 'o', 'k', 'i', 'e', 's']] := by decide
  have h2 : pyInt (removeCommas ['1', '7']) = some 17 := by decide
  have h3 : (legacy_find_max [(0, ("A\n100" : String).data)]).1 = some 0 := by
    decide
  unfold legacyStep
  rw [h1]
  dsimp only
  rw [h2]
  dsimp only
  rw [if_pos (by norm_num : (8 / 5 : ℚ) * 10 < ((17 : ℤ) : ℚ))]
  rw [h3]
  norm_num

/-- Claim C2 (amended): in `CookieClickerBot._try_purchase` a buy action
is issued only when the cookie count read at decision time is at least
the selected option's parsed price; the legacy script's loop does not
perform this check. -/
theorem claim_C2_buy_only_if_affordable (c : ℤ)
    (ps : List (ℕ × List Char)) (s : BotState) (h : ℕ)
    (hb : (try_purchase c ps s).2 = some h) :
    ∃ t, (h, t) ∈ ps ∧
      parsedPrice t = some (find_most_expensive_product ps).2 ∧
      ((find_most_expensive_product ps).2 : ℤ) ≤ c := by
  obtain ⟨hth, hsel, hle, _⟩ := try_purchase_buy_inv hb
  obtain ⟨⟨t, ht, hpt⟩, _, _⟩ := fmep_some ps h hsel
  exact ⟨t, ht, hpt, hle⟩

/-- Witness for amended C2 at a concrete buying tick. -/
theorem claim_C2_buy_only_if_affordable_witness :
    ∃ t, (0, t) ∈ [(0, ("Cursor\n100" : String).data)] ∧
      parsedPrice t =
        some (find_most_expensive_product
          [(0, ("Cursor\n100" : String).data)]).2 ∧
      ((find_most_expensive_product
          [(0, ("Cursor\n100" : String).data)]).2 : ℤ) ≤ 300 :=
  claim_C2_buy_only_if_affordable 300 [(0, ("Cursor\n100" : String).data)]
    initState 0 (by decide)

/-- Claim C8 counterexample: when the buy click raises `StaleElement`,
`_try_purchase` does not swallow it — the call exits with the exception
instead of completing the cycle as a no-op. -/
theorem claim_C8_cex :
    try_purchaseE (fun _ => true) 300
        [(0, ("Grandma\n250" : String).data)] initState =
      Except.error (SelEx.staleElement, initState) ∧
      try_purchaseE (fun _ => true) 300
          [(0, ("Grandma\n250" : String).data)] initState ≠
        Except.ok (initState, none) := by
  have h : try_purchaseE (fun _ => true) 300
      [(0, ("Grandma\n250" : String).data)] initState =
      Except.error (SelEx.staleElement, initState) := by rfl
  refine ⟨h, ?_⟩
  rw [h]
  intro hc
  cases hc

/-- Claim C8 (amended): if the buy action fails with `StaleElement`, the
statistics and threshold are indeed unchanged at the point of the raise
(the increments come after the buy call), but the exception propagates
out of `_try_purchase` uncaught — the cycle does not continue as a no-op.
When the buy does not fail, `_try_purchase` completes normally. -/
theorem claim_C8_stale_propagates (buyFails : ℕ → Bool) (c : ℤ)
    (ps : List (ℕ × List Char)) (s : BotState) :
    (∀ e s', try_purchaseE buyFails c ps s = Except.error (e, s') →
        e = SelEx.staleElement ∧ s' = s) ∧
      try_purchaseE (fun _ => false) c ps s =
        Except.ok (try_purchase c ps s) := by
  constructor
  · intro e s' herr
    rcases try_purchaseE_ok_or_error buyFails c ps s with hok | ⟨h, _, _, herr'⟩
    · rw [hok] at herr
      cases herr
    · rw [herr'] at herr
      exact ⟨(Prod.mk.injEq _ _ _ _ ▸ Except.error.inj herr).1.symm,
        (Prod.mk.injEq _ _ _ _ ▸ Except.error.inj herr).2.symm⟩
  · rcases try_purchaseE_ok_or_error (fun _ => false) c ps s
        with hok | ⟨h, _, hbf, _⟩
    · exact hok
    · cases hbf

/-- Witness for amended C8 at a concrete stale buy. -/
theorem claim_C8_stale_propagates_witness :
    SelEx.staleElement = SelEx.staleElement ∧ initState = initState :=
  (claim_C8_stale_propagates (fun _ => true) 300
      [(0, ("Grandma\n250" : String).data)] initState).1
    SelEx.staleElement initState (by rfl)

/-- Claim C4: evaluation at the failing input.  In the legacy script
(src/cookie_clicker.py), when 100 cookies are banked (`counter*10 = 16 <
100`) but no enabled button has an all-digit trailing token,
`most_expensive` stays `None` and `most_expensive.click()` on line 79
raises `AttributeError` — the cycle does NOT complete with a fallback.
The bot's `_try_purchase` (src/examples/cookie_clicker.py) handles the
same situation without raising, returning no action. -/
theorem claim_C4_legacy_crash :
    legacyStep ("100 cookies" : String).data
        [(0, ("Cursor\nbuy" : String).data)] (8 / 5) =
      Except.error SelEx.attributeError ∧
      try_purchase 100 [(0, ("Cursor\nbuy" : String).data)] initState =
        (initState, none) := by
  constructor
  · have h1 : pySplitWs ("100 cookies" : String).data =
        [['1', '0', '0'], ['c', 'o', 'o', 'k', 'i', 'e', 's']] := by decide
    have h2 : pyInt (removeCommas ['1', '0', '0']) = some 100 := by decide
    have h3 : (legacy_find_max [(0, ("Cursor\nbuy" : String).data)]).1 =
        none := by decide
    unfold legacyStep
    rw [h1]
    dsimp only
    rw [h2]
    dsimp only
    rw [if_pos (by norm_num : (8 / 5 : ℚ) * 10 < ((100 : ℤ) : ℚ))]
    rw [h3]
  · decide

/-- If the clock first reaches `start + duration` at the `n`-th loop
check, then with more than `n` units of fuel the run loop stops at that
check and emits the final statistics. -/
theorem runAux_terminates (env : RunEnv) (start duration : ℚ) :
    ∀ (n i fuel : ℕ) (s : BotState),
      (∀ m, m < n → env.clock (i + m) - start < duration) →
      ¬(env.clock (i + n) - start < duration) →
      n < fuel →
      ∃ s', runAux env start duration fuel i s =
        some (s', ⟨s'.click_count, s'.purchase_count,
                   get_cookie_count (env.cookiesText (i + n))⟩) := by
  intro n
  induction n with
  | zero =>
    intro i fuel s _ hstop hfuel
    cases fuel with
    | zero => omega
    | succ f =>
      refine ⟨s, ?_⟩
      unfold runAux
      rw [if_neg (by simpa using hstop)]
      simp
  | succ n ih =>
    intro i fuel s hrun hstop hfuel
    cases fuel with
    | zero => omega
    | succ f =>
      have hc : env.clock i - start < duration := by
        simpa using hrun 0 (Nat.succ_pos n)
      unfold runAux
      rw [if_pos hc]
      dsimp only
      have hrun' : ∀ m, m < n → env.clock (i + 1 + m) - start < duration := by
        intro m hm
        have hcl := hrun (m + 1) (by omega)
        have he : i + (m + 1) = i + 1 + m := by omega
        rwa [he] at hcl
      have hstop' : ¬(env.clock (i + 1 + n) - start < duration) := by
        have he : i + 1 + n = i + (n + 1) := by omega
        rwa [he]
      have he2 : i + (n + 1) = i + 1 + n := by omega
      rw [he2]
      exact ih (i + 1) f _ hrun' hstop' (by omega)

/-- Claim C9: `run(duration)` terminates at the first loop check where
the elapsed wall-clock time is at least `duration` and then emits the
final statistics summary (total clicks, total purchases, final cookie
count); with `duration = 0` and no time elapsed at the first check it
terminates immediately with the statistics of the initial state (zero
clicks performed). -/
theorem claim_C9_run_terminates (env : RunEnv) (start duration : ℚ)
    (n fuel : ℕ) (s : BotState)
    (hbefore : ∀ m, m < n → env.clock m - start < duration)
    (hstop : ¬(env.clock n - start < duration)) (hfuel : n < fuel) :
    (∃ s', runFor env start duration fuel s =
        some (s', ⟨s'.click_count, s'.purchase_count,
                   get_cookie_count (env.cookiesText n)⟩)) ∧
      (env.clock 0 = start →
        runFor env start 0 fuel s =
          some (s, ⟨s.click_count, s.purchase_count,
                    get_cookie_count (env.cookiesText 0)⟩)) := by
  constructor
  · have hterm := runAux_terminates env start duration n 0 fuel s
      (by simpa using hbefore) (by simpa using hstop) hfuel
    simpa using hterm
  · intro h0
    cases fuel with
    | zero => omega
    | succ f =>
      unfold runFor runAux
      rw [if_neg (by rw [h0]; simp)]

/-- Witness for C9: an integer clock starting at 0 first reaches a
duration of 2 at check index 2; and a zero-duration run returns at once
with zero clicks. -/
theorem claim_C9_run_terminates_witness :
    (∃ s', runFor
        ⟨fun i => (i : ℚ), fun _ => ("5 cookies" : String).data,
         fun _ => []⟩ 0 2 3 initState =
      some (s', ⟨s'.click_count, s'.purchase_count,
                 get_cookie_count (("5 cookies" : String).data)⟩)) ∧
      runFor
          ⟨fun i => (i : ℚ), fun _ => ("5 cookies" : String).data,
           fun _ => []⟩ 0 0 3 initState =
        some (initState, ⟨0, 0,
          get_cookie_count (("5 cookies" : String).data)⟩) :=
  ⟨(claim_C9_run_terminates
      ⟨fun i => (i : ℚ), fun _ => ("5 cookies" : String).data,
       fun _ => []⟩ 0 2 2 3 initState
      (by intro m hm; interval_cases m <;> norm_num)
      (by norm_num) (by omega)).1,
   (claim_C9_run_terminates
      ⟨fun i => (i : ℚ), fun _ => ("5 cookies" : String).data,
       fun _ => []⟩ 0 0 0 3 initState
      (by intro m hm; omega)
      (by norm_num) (by omega)).2 (by norm_num)⟩

theorem digitVal_digitChar {d : ℕ} (hd : d < 10) :
    digitVal (Nat.digitChar d) = d := by
  interval_cases d <;> decide

theorem digitChar_isDigit {d : ℕ} (hd : d < 10) :
    (Nat.digitChar d).isDigit = true := by
  interval_cases d <;> decide

theorem digitChar_ne_comma {d : ℕ} (hd : d < 10) :
    Nat.digitChar d ≠ ',' := by
  interval_cases d <;> decide

theorem isDigit_not_ws {c : Char} (hc : c.isDigit = true) :
    c.isWhitespace = false := by
  rcases hb : c.isWhitespace with _ | _
  · rfl
  · exfalso
    have hw := hb
    simp [Char.isWhitespace] at hw
    rcases hw with ((h | h) | h) | h <;> subst h <;>
      exact absurd hc (by decide)

theorem isDigit_ne_plus {c : Char} (hc : c.isDigit = true) : c ≠ '+' := by
  rintro rfl
  exact absurd hc (by decide)

theorem isDigit_ne_minus {c : Char} (hc : c.isDigit = true) : c ≠ '-' := by
  rintro rfl
  exact absurd hc (by decide)

theorem removeCommas_cons_comma (l : List Char) :
    removeCommas (',' :: l) = removeCommas l := by
  simp [removeCommas]

theorem removeCommas_cons {c : Char} (l : List Char) (hc : c ≠ ',') :
    removeCommas (c :: l) = c :: removeCommas l := by
  simp [removeCommas, hc]

theorem removeCommas_reverse (l : List Char) :
    removeCommas l.reverse = (removeCommas l).reverse := by
  simp [removeCommas, List.filter_reverse]

theorem digitsToNat_append (xs : List Char) (c : Char) :
    digitsToNat (xs ++ [c]) = 10 * digitsToNat xs + digitVal c := by
  simp [digitsToNat, List.foldl_append]

theorem digitsToNat_reverse_map (ds : List ℕ) (h : ∀ d ∈ ds, d < 10) :
    digitsToNat ((ds.map Nat.digitChar).reverse) = Nat.ofDigits 10 ds := by
  induction ds with
  | nil => simp [digitsToNat, Nat.ofDigits]
  | cons d ds ih =>
    have hd : d < 10 := h d (List.mem_cons_self d ds)
    have hds : ∀ x ∈ ds, x < 10 := fun x hx => h x (List.mem_cons_of_mem _ hx)
    rw [List.map_cons, List.reverse_cons, digitsToNat_append, ih hds,
      Nat.ofDigits_cons, digitVal_digitChar hd]
    ring

theorem removeCommas_groupSepAux (cs : List Char) :
    ∀ k, (∀ c ∈ cs, c ≠ ',') → removeCommas (groupSepAux k cs) = cs := by
  induction cs with
  | nil => intro k _; rfl
  | cons c cs ih =>
    intro k h
    have hc : c ≠ ',' := h c (List.mem_cons_self _ _)
    have hcs : ∀ x ∈ cs, x ≠ ',' :=
      fun x hx => h x (List.mem_cons_of_mem _ hx)
    cases k with
    | zero =>
      rw [show groupSepAux 0 (c :: cs) = ',' :: c :: groupSepAux 2 cs
          from rfl,
        removeCommas_cons_comma, removeCommas_cons _ hc, ih 2 hcs]
    | succ k =>
      rw [show groupSepAux (k + 1) (c :: cs) = c :: groupSepAux k cs
          from rfl,
        removeCommas_cons _ hc, ih k hcs]

theorem mem_groupSepAux (cs : List Char) :
    ∀ k c, c ∈ groupSepAux k cs → c ∈ cs ∨ c = ',' := by
  induction cs with
  | nil => intro k c hc; cases hc
  | cons d cs ih =>
    intro k c hc
    cases k with
    | zero =>
      rw [show groupSepAux 0 (d :: cs) = ',' :: d :: groupSepAux 2 cs
          from rfl] at hc
      rcases List.mem_cons.mp hc with rfl | hc'
      · exact Or.inr rfl
      · rcases List.mem_cons.mp hc' with rfl | hc''
        · exact Or.inl (List.mem_cons_self _ _)
        · rcases ih 2 c hc'' with hm | he
          · exact Or.inl (List.mem_cons_of_mem _ hm)
          · exact Or.inr he
    | succ k =>
      rw [show groupSepAux (k + 1) (d :: cs) = d :: groupSepAux k cs
          from rfl] at hc
      rcases List.mem_cons.mp hc with rfl | hc'
      · exact Or.inl (List.mem_cons_self _ _)
      · rcases ih k c hc' with hm | he
        · exact Or.inl (List.mem_cons_of_mem _ hm)
        · exact Or.inr he

theorem groupSepAux_ne_nil {cs : List Char} (h : cs ≠ []) (k : ℕ) :
    groupSepAux k cs ≠ [] := by
  cases cs with
  | nil => exact absurd rfl h
  | cons c cs =>
    cases k with
    | zero => exact List.cons_ne_nil _ _
    | succ k => exact List.cons_ne_nil _ _

/-- `split()` isolates a leading whitespace-free token followed by a
space: the token becomes the first element of the result. -/
theorem pySplitWsAux_token (tok : List Char) :
    ∀ (cur rest : List Char), (∀ c ∈ tok, c.isWhitespace = false) →
      ¬(cur = [] ∧ tok = []) →
      pySplitWsAux cur (tok ++ ' ' :: rest) =
        (cur.reverse ++ tok) :: pySplitWsAux [] rest := by
  induction tok with
  | nil =>
    intro cur rest _ hne
    have hcur : ¬(cur = []) := fun h => hne ⟨h, rfl⟩
    show pySplitWsAux cur (' ' :: rest) = _
    rw [pySplitWsAux]
    rw [if_pos (by decide : (' ').isWhitespace = true), if_neg hcur]
    simp
  | cons c tok ih =>
    intro cur rest hnw hne
    have hc : c.isWhitespace = false := hnw c (List.mem_cons_self _ _)
    show pySplitWsAux cur (c :: (tok ++ ' ' :: rest)) = _
    rw [pySplitWsAux]
    rw [if_neg (by simp [hc])]
    rw [ih (c :: cur) rest
      (fun x hx => hnw x (List.mem_cons_of_mem _ hx)) (by simp)]
    simp

theorem withSep_ne_nil (n : ℕ) : withSep n ≠ [] := by
  unfold withSep
  split
  · exact List.cons_ne_nil _ _
  · rw [ne_eq, List.reverse_eq_nil_iff]
    refine groupSepAux_ne_nil ?_ 3
    rw [ne_eq, List.map_eq_nil_iff]
    rw [digitsLE_eq n n le_rfl]
    exact Nat.digits_ne_nil_iff_ne_zero.mpr (by assumption)

theorem withSep_chars (n : ℕ) :
    ∀ c ∈ withSep n, c.isDigit = true ∨ c = ',' := by
  intro c hc
  unfold withSep at hc
  split at hc
  · rcases List.mem_singleton.mp hc with rfl
    exact Or.inl (by decide)
  · rw [List.mem_reverse] at hc
    rcases mem_groupSepAux _ 3 c hc with hm | he
    · rw [List.mem_map] at hm
      obtain ⟨d, hd, rfl⟩ := hm
      rw [digitsLE_eq n n le_rfl] at hd
      exact Or.inl (digitChar_isDigit
        (Nat.digits_lt_base (by norm_num) hd))
    · exact Or.inr he

theorem removeCommas_withSep {n : ℕ} (hn : n ≠ 0) :
    removeCommas (withSep n) =
      ((Nat.digits 10 n).map Nat.digitChar).reverse := by
  unfold withSep
  rw [if_neg hn, removeCommas_reverse, removeCommas_groupSepAux, 
    digitsLE_eq n n le_rfl]
  intro c hc
  rw [List.mem_map] at hc
  obtain ⟨d, hd, rfl⟩ := hc
  rw [digitsLE_eq n n le_rfl] at hd
  exact digitChar_ne_comma (Nat.digits_lt_base (by norm_num) hd)

theorem pyInt_digits (cs : List Char) (hne : cs ≠ [])
    (hall : ∀ c ∈ cs, c.isDigit = true) :
    pyInt cs = some ((digitsToNat cs : ℕ) : ℤ) := by
  rcases cs with _ | ⟨c, rest⟩
  · exact absurd rfl hne
  · have hc := hall c (List.mem_cons_self _ _)
    have hisd : pyIsdigit (c :: rest) = true := by
      simp only [pyIsdigit, Bool.and_eq_true, decide_eq_true_eq,
        List.all_eq_true]
      exact ⟨by simp, fun x hx => hall x hx⟩
    unfold pyInt
    dsimp only
    rw [if_neg (isDigit_ne_plus hc), if_neg (isDigit_ne_minus hc)]
    simp [parseDigits, hisd]

/-- Round trip: the currency display of `n` with thousands separators
followed by any space-separated suffix parses back to exactly `n`. -/
theorem get_cookie_count_withSep (n : ℕ) (suffix : List Char) :
    get_cookie_count (withSep n ++ ' ' :: suffix) = (n : ℤ) := by
  have hnw : ∀ c ∈ withSep n, c.isWhitespace = false := by
    intro c hc
    rcases withSep_chars n c hc with hd | rfl
    · exact isDigit_not_ws hd
    · rfl
  have hsplit := pySplitWsAux_token (withSep n) [] suffix hnw
    (fun h => withSep_ne_nil n h.2)
  rw [List.reverse_nil, List.nil_append] at hsplit
  unfold get_cookie_count pySplitWs
  rw [hsplit]
  dsimp only
  rcases Nat.eq_zero_or_pos n with rfl | hpos
  · rw [show removeCommas (withSep 0) = ['0'] from rfl]
    rw [show pyInt ['0'] = some 0 from rfl]
    simp
  · have hn : n ≠ 0 := Nat.pos_iff_ne_zero.mp hpos
    rw [removeCommas_withSep hn]
    have hmem : ∀ c ∈ ((Nat.digits 10 n).map Nat.digitChar).reverse,
        c.isDigit = true := by
      intro c hc
      rw [List.mem_reverse, List.mem_map] at hc
      obtain ⟨d, hd, rfl⟩ := hc
      exact digitChar_isDigit (Nat.digits_lt_base (by norm_num) hd)
    have hne : ((Nat.digits 10 n).map Nat.digitChar).reverse ≠ [] := by
      rw [ne_eq, List.reverse_eq_nil_iff, List.map_eq_nil_iff]
      exact Nat.digits_ne_nil_iff_ne_zero.mpr hn
    rw [pyInt_digits _ hne hmem]
    rw [digitsToNat_reverse_map _
      (fun d hd => Nat.digits_lt_base (by norm_num) hd)]
    rw [Nat.ofDigits_digits]

/-- Claim C5: a currency text `⟨n with thousands separators⟩ ⟨suffix⟩`
parses to exactly `n`; a malformed text (no tokens, or a first token
whose comma-stripped form is not an integer) parses to the fallback `0`
(the embedding is total, so no exception escapes). -/
theorem claim_C5_currency_parsing (n : ℕ) (suffix text : List Char) :
    get_cookie_count (withSep n ++ ' ' :: suffix) = (n : ℤ) ∧
      (pySplitWs text = [] → get_cookie_count text = 0) ∧
      (∀ t ts, pySplitWs text = t :: ts →
        pyInt (removeCommas t) = none → get_cookie_count text = 0) := by
  refine ⟨get_cookie_count_withSep n suffix, ?_, ?_⟩
  · intro hsp
    unfold get_cookie_count
    rw [hsp]
  · intro t ts hsp hpi
    unfold get_cookie_count
    rw [hsp]
    dsimp only
    rw [hpi]

/-- Witness for C5 on `1,234,567 cookies` and on the malformed `abc`. -/
theorem claim_C5_currency_parsing_witness :
    get_cookie_count
        (withSep 1234567 ++ ' ' :: ("cookies" : String).data) =
      (1234567 : ℤ) ∧
      get_cookie_count (("abc" : String).data) = 0 :=
  ⟨(claim_C5_currency_parsing 1234567 ("cookies" : String).data
      ("abc" : String).data).1,
   (claim_C5_currency_parsing 1234567 ("cookies" : String).data
      ("abc" : String).data).2.2 ['a', 'b', 'c'] [] (by decide) (by decide)⟩
